import Mathlib

/-!
Verification development for the form-input-restore content script
(`src/content.js`).  The script tracks user edits to form controls,
stages them in an in-memory map keyed by a stable identity, flushes the
staged changes into a persisted per-page record, and restores values on
demand by identity lookup, name-group lookup and fingerprint scoring.

The DOM is shallowly embedded: an element is a flat record carrying the
attributes and control state that the script reads or writes.  Values
that the script derives by walking the document (the resolved label
text, the structural css path, the owning form's action attribute
resolved against the page path, the coalesced test-id attributes) are
stored as fields of the element, holding exactly the string the
corresponding source helper would return.  A document is the list of its
control elements in document order; `document.querySelector` on a
structural-path selector is abstracted as a lookup parameter.
-/

namespace FormSaver

/-- One `<option>` of a select: its value attribute and selectedness. -/
structure Opt where
  value : String
  selected : Bool
deriving DecidableEq, Repr

/-- A DOM form-control element, flattened.  `idAttr` models the `el.id`
property (`""` when the attribute is absent); optional fields model
`getAttribute` (`none` = attribute absent).  `testid` is the coalesced
`data-testid || data-qa || data-cy || ""`; `formAction` is the resolved
`(el.form && (action attribute || "")) || location.pathname`;
`labelText` is the resolved `getLabelText(el)`; `pathStr` the resolved
`cssPath(el)` — each computed from the surrounding document, so carried
here as a field. -/
structure Elem where
  tagName : String
  typeAttr : Option String
  nameAttr : Option String
  idAttr : String
  placeholderAttr : Option String
  autocompleteAttr : Option String
  ariaLabelAttr : Option String
  ariaLabelledByAttr : Option String
  testid : String
  formAction : String
  labelText : String
  pathStr : String
  disabled : Bool
  value : String
  checked : Bool
  multiple : Bool
  options : List Opt
deriving DecidableEq, Repr

/-- JavaScript `s || d` on a string-or-null: the default replaces both
`null` and the empty string. -/
def orDefault : Option String → String → String
  | some v, d => if v = "" then d else v
  | none, d => d

/-- Character-wise lowercasing (JS `toLowerCase`), kept at the
character-list level so concrete instances evaluate in the kernel. -/
def toLowerStr (s : String) : String :=
  String.mk (s.data.map Char.toLower)

/-- Whitespace stripped from both ends (JS `trim`). -/
def trimStr (s : String) : String :=
  String.mk (((s.data.dropWhile Char.isWhitespace).reverse.dropWhile Char.isWhitespace).reverse)

/-- Model of `(el.getAttribute("type") || "text").toLowerCase()`, the resolved
input subtype used by the classifier, the codec and the restore gate. -/
def typeResolved (el : Elem) : String :=
  toLowerStr (orDefault el.typeAttr "text")

/-- Model of `isUsableControl` (src/content.js:22-31): rejects disabled elements
and non-value-carrying input subtypes. -/
def isUsableControl (el : Elem) : Bool :=
  if el.disabled then false
  else if el.tagName = "INPUT" then
    ! (["submit", "button", "image", "reset", "file"].contains (typeResolved el))
  else el.tagName == "TEXTAREA" || el.tagName == "SELECT"

/-- Maximal runs of whitespace become one space (the
`replace(/\s+/g, " ")` step); the flag records whether the previous
character was part of a whitespace run. -/
def collapseWsAux : Bool → List Char → List Char
  | _, [] => []
  | prevWs, c :: rest =>
    if c.isWhitespace then
      if prevWs then collapseWsAux true rest
      else ' ' :: collapseWsAux true rest
    else c :: collapseWsAux false rest

/-- Model of `normalizeText` (src/content.js:63-65): trim, lowercase, collapse
internal whitespace, cap at 160 characters. -/
def normalizeText (s : String) : String :=
  String.mk ((collapseWsAux false (toLowerStr (trimStr s)).data).take 160)

/-- Model of `FieldIdentity`: the tagged variant produced by `getStableId`. -/
inductive StableId where
  | id (value : String)
  | name (value : String) (tag : String)
  | path (value : String)
deriving DecidableEq, Repr

/-- Model of `getStableId` (src/content.js:33-37): id, else name+tag, else
structural path. -/
def getStableId (el : Elem) : StableId :=
  if el.idAttr ≠ "" then .id el.idAttr
  else if orDefault el.nameAttr "" ≠ "" then .name (orDefault el.nameAttr "") el.tagName
  else .path el.pathStr

/-- Model of `stableKey` (src/content.js:39-45): the kind-tagged string key; a
missing identity collapses to `"unknown"`. -/
def stableKey : Option StableId → String
  | none => "unknown"
  | some (.id v) => "id:" ++ v
  | some (.name v t) => "name:" ++ t ++ ":" ++ v
  | some (.path v) => "path:" ++ v

/-- Model of `Fingerprint` (src/content.js:97-114): the semantic descriptor used
for fuzzy re-matching. -/
structure Fingerprint where
  tag : String
  type : String
  name : String
  autocomplete : String
  placeholder : String
  ariaLabel : String
  ariaLabelledBy : String
  labelText : String
  testid : String
  formAction : String
deriving DecidableEq, Repr

/-- Model of `getFingerprint` (src/content.js:97-114). -/
def getFingerprint (el : Elem) : Fingerprint where
  tag := el.tagName
  type := toLowerStr (orDefault el.typeAttr "")
  name := orDefault el.nameAttr ""
  autocomplete := orDefault el.autocompleteAttr ""
  placeholder := orDefault el.placeholderAttr ""
  ariaLabel := orDefault el.ariaLabelAttr ""
  ariaLabelledBy := orDefault el.ariaLabelledByAttr ""
  labelText := el.labelText
  testid := el.testid
  formAction := el.formAction

/-- Model of `ControlValue`: the tagged value union the codec reads and writes. -/
inductive ControlValue where
  | checkbox (checked : Bool)
  | radio (checked : Bool) (value : String)
  | input (value : String)
  | textarea (value : String)
  | selectMultiple (selectedIndexes : List Nat) (values : List String)
  | select (selectedIndex : Int) (value : String)
deriving DecidableEq, Repr

/-- Indexes (from `i`) of the selected options, ascending — the
`Array.from(el.options).map(...).filter(...)` step of the reader. -/
def selectedIdxsFrom : Nat → List Opt → List Nat
  | _, [] => []
  | i, o :: os =>
    if o.selected then i :: selectedIdxsFrom (i + 1) os
    else selectedIdxsFrom (i + 1) os

/-- Model of `el.selectedIndex`: index of the first selected option, `-1` if none. -/
def selectedIndexOf (opts : List Opt) : Int :=
  match opts.findIdx? (·.selected) with
  | some i => (i : Int)
  | none => -1

/-- Model of `el.value` of a select: the first selected option's value, else `""`. -/
def selectValueOf (opts : List Opt) : String :=
  match opts.find? (·.selected) with
  | some o => o.value
  | none => ""

/-- Model of `readControlValue` (src/content.js:116-135); `none` models the
`return null` for unsupported tags. -/
def readControlValue (el : Elem) : Option ControlValue :=
  if el.tagName = "INPUT" then
    if typeResolved el = "checkbox" then some (.checkbox el.checked)
    else if typeResolved el = "radio" then some (.radio el.checked el.value)
    else some (.input el.value)
  else if el.tagName = "TEXTAREA" then some (.textarea el.value)
  else if el.tagName = "SELECT" then
    if el.multiple then
      let idxs := selectedIdxsFrom 0 el.options
      some (.selectMultiple idxs ((el.options.filter (·.selected)).map (·.value)))
    else some (.select (selectedIndexOf el.options) (selectValueOf el.options))
  else none

/-- Each option's selectedness becomes membership of its index in the
set — the `opt.selected = idxSet.has(i)` loop of the writer. -/
def markSelectedFrom (idxs : List Nat) : Nat → List Opt → List Opt
  | _, [] => []
  | i, o :: os => ⟨o.value, idxs.contains i⟩ :: markSelectedFrom idxs (i + 1) os

/-- Exactly the option at index `hit` (counting from `i`) is selected,
every other one deselected. -/
def selMark (hit : Option Nat) : Nat → List Opt → List Opt
  | _, [] => []
  | i, o :: os => ⟨o.value, hit == some i⟩ :: selMark hit (i + 1) os

/-- The DOM semantics of assigning `el.value` on a single select: the
first option whose value matches becomes the one selected option; if
none matches, every option is deselected. -/
def setSelectValue (el : Elem) (v : String) : Elem :=
  { el with options := selMark (el.options.findIdx? (fun o => o.value = v)) 0 el.options }

/-- The DOM semantics of assigning `el.selectedIndex` on a single
select: that index (when in range) becomes the one selected option. -/
def setSelectedIndex (el : Elem) (ix : Int) : Elem :=
  let hit : Option Nat := if 0 ≤ ix then some ix.toNat else none
  { el with options := selMark hit 0 el.options }

/-- Model of `writeControlValue` (src/content.js:137-174).  Returns the updated
element; every branch that the source leaves via fall-through returns
the element unchanged (the source's mismatched-shape no-ops).  Note the
source's `INPUT` block applies an `input`-shaped value to any input
element, checkbox and radio subtypes included. -/
def writeControlValue (el : Elem) (data : Option ControlValue) : Elem :=
  match data with
  | none => el
  | some d =>
    if el.tagName = "INPUT" then
      match d with
      | .checkbox c => if typeResolved el = "checkbox" then { el with checked := c } else el
      | .radio c _ => if typeResolved el = "radio" then { el with checked := c } else el
      | .input v => { el with value := v }
      | _ => el
    else if el.tagName = "TEXTAREA" then
      match d with
      | .textarea v => { el with value := v }
      | _ => el
    else if el.tagName = "SELECT" then
      if el.multiple then
        match d with
        | .selectMultiple idxs _ => { el with options := markSelectedFrom idxs 0 el.options }
        | _ => el
      else
        match d with
        | .select _ v => setSelectValue el v
        | _ => el
    else el

/-- Model of `scoreMatch` (src/content.js:281-312): the additive fingerprint
score; a missing fingerprint or a falsy stored field contributes 0. -/
def scoreMatch (fp? : Option Fingerprint) (el : Elem) : Nat :=
  match fp? with
  | none => 0
  | some fp =>
    (if el.tagName = fp.tag then 3 else 0) +
    (if toLowerStr (orDefault el.typeAttr "") = fp.type then 3 else 0) +
    (if fp.formAction ≠ "" ∧ el.formAction = fp.formAction then 2 else 0) +
    (if fp.name ≠ "" ∧ orDefault el.nameAttr "" = fp.name then 10 else 0) +
    (if fp.testid ≠ "" ∧ el.testid = fp.testid then 12 else 0) +
    (if fp.placeholder ≠ "" ∧ orDefault el.placeholderAttr "" = fp.placeholder then 5 else 0) +
    (if fp.autocomplete ≠ "" ∧ orDefault el.autocompleteAttr "" = fp.autocomplete then 3 else 0) +
    (if fp.ariaLabel ≠ "" ∧ orDefault el.ariaLabelAttr "" = fp.ariaLabel then 6 else 0) +
    (if fp.labelText ≠ "" ∧ el.labelText ≠ "" ∧ el.labelText = normalizeText fp.labelText then 10 else 0)

/-- The `for (const el of all)` loop of `findBestByFingerprint`: fold a
(best index, best score) accumulator over the document, skipping
non-trackable nodes (the source filters the node list first; folding
with the filter inlined keeps document indices available), improving
only on a strictly greater score. -/
def findBestAux (fp : Fingerprint) : List Elem → Nat → Option Nat × Nat → Option Nat × Nat
  | [], _, acc => acc
  | el :: rest, i, acc =>
    findBestAux fp rest (i + 1)
      (if isUsableControl el then
        if acc.2 < scoreMatch (some fp) el then (some i, scoreMatch (some fp) el) else acc
      else acc)

/-- Model of `findBestByFingerprint` (src/content.js:314-331), returning the
document index of the chosen control (the source returns the element
reference).  The best candidate is kept only at score ≥ 12. -/
def findBestByFingerprint (fp? : Option Fingerprint) (doc : List Elem) : Option Nat :=
  match fp? with
  | none => none
  | some fp =>
    let r := findBestAux fp doc 0 (none, 0)
    if 12 ≤ r.2 then r.1 else none

/-- A stored `FieldRecord` (the object built by `recordChange`,
src/content.js:440-449).  Optional fields mirror the null-tolerant reads
the restore code performs on records coming back from storage. -/
structure Item where
  id : Option StableId
  tag : String
  type : Option String
  value : Option ControlValue
  fingerprint : Option Fingerprint
deriving DecidableEq, Repr

/-- A persisted `PageRecord` (src/content.js:243-247). -/
structure PageRecord where
  updatedAt : Nat
  url : String
  data : List Item
deriving DecidableEq, Repr

/-- JS `Map.set` / object property assignment on an association list:
replace in place when the key is present, append otherwise. -/
def setEntry {α : Type} : List (String × α) → String → α → List (String × α)
  | [], k, v => [(k, v)]
  | (k0, v0) :: rest, k, v =>
    if k0 = k then (k, v) :: rest else (k0, v0) :: setEntry rest k v

/-- JS `Map.get` / object property read: first entry with the key. -/
def lookupEntry {α : Type} : List (String × α) → String → Option α
  | [], _ => none
  | (k0, v0) :: rest, k => if k0 = k then some v0 else lookupEntry rest k

/-- JS `delete pages[k]`. -/
def deleteKey {α : Type} (m : List (String × α)) (k : String) : List (String × α) :=
  m.filter (fun p => p.1 != k)

/-- The value the LAST entry with key `k` holds — what a left-to-right
sequence of `Map.set` calls leaves behind for that key. -/
def lastVal {α : Type} : List (String × α) → String → Option α
  | [], _ => none
  | (k0, v0) :: rest, k =>
    match lastVal rest k with
    | some v => some v
    | none => if k0 = k then some v0 else none

/-- The whole persisted store: PageKey → PageRecord, as the JS object
held under the single storage key. -/
abbrev Pages := List (String × PageRecord)

/-- The in-memory staged-change map `changedMap`. -/
abbrev ChangedMap := List (String × Item)

/-- Model of `recordChange` (src/content.js:440-449): the staged `Item` built
from an element.  The stored `type` is `getAttribute("type") || null`. -/
def mkItem (el : Elem) : Item where
  id := some (getStableId el)
  tag := el.tagName
  type := match el.typeAttr with
    | some t => if t = "" then none else some t
    | none => none
  value := readControlValue el
  fingerprint := some (getFingerprint el)

/-- Model of `recordChange`'s effect on `changedMap`:
`changedMap.set(stableKey(id), item)`. -/
def recordChange (el : Elem) (m : ChangedMap) : ChangedMap :=
  setEntry m (stableKey (some (getStableId el))) (mkItem el)

/-- The merge step of `saveCurrentPage` (src/content.js:237-241): a map
seeded with the previously persisted items keyed by their stable key,
then overlaid with the staged changes. -/
def mergeData (existing : Option (List Item)) (changed : ChangedMap) : List (String × Item) :=
  let m0 : List (String × Item) :=
    match existing with
    | some items => items.foldl (fun m it => setEntry m (stableKey it.id) it) []
    | none => []
  changed.foldl (fun m p => setEntry m p.1 p.2) m0

/-- The `keys.sort((a, b) => updatedAt a - updatedAt b)` comparator key:
`pages[k]?.updatedAt || 0`. -/
def updAt (pages : Pages) (k : String) : Nat :=
  match lookupEntry pages k with
  | some r => r.updatedAt
  | none => 0

/-- Stable ascending insertion by `updAt` (a stable sort, as JS
`Array.prototype.sort` is). -/
def insertByUpd (pages : Pages) (k : String) : List String → List String
  | [] => [k]
  | x :: xs =>
    if updAt pages k < updAt pages x then k :: x :: xs
    else x :: insertByUpd pages k xs

/-- Model of `Object.keys(pages).sort(...)` of `cleanupIfNeeded`: the page keys,
oldest `updatedAt` first. -/
def sortKeysByUpd (pages : Pages) : List String :=
  (pages.map (·.1)).foldr (insertByUpd pages) []

/-- The deletion loop of `cleanupIfNeeded` (src/content.js:219-224):
walk the oldest-first keys, stopping as soon as usage is under target,
deleting (and persisting) otherwise.  `bytes` abstracts
`getBytesInUse` as a function of the currently persisted store. -/
def evictLoop (target : Nat) (bytes : Pages → Nat) : List String → Pages → Pages
  | [], pages => pages
  | k :: ks, pages =>
    if bytes pages ≤ target then pages
    else evictLoop target bytes ks (deleteKey pages k)

/-- Removal of a whole key list, front first. -/
def deleteKeys (ks : List String) (pages : Pages) : Pages :=
  ks.foldl deleteKey pages

/-- Model of `cleanupIfNeeded` (src/content.js:204-225).  `quota = none` models
an unavailable `QUOTA_BYTES` (the `typeof quota !== "number"` guard);
`quota = some 0` the `quota <= 0` guard.  The target is
`Math.floor(quota * 0.90)`, exact over the rationals. -/
def cleanupIfNeeded (quota : Option Nat) (bytes : Pages → Nat) (pages : Pages) : Pages :=
  match quota with
  | none => pages
  | some q =>
    if q = 0 then pages
    else
      let target := q * 9 / 10
      if bytes pages ≤ target then pages
      else evictLoop target bytes (sortKeysByUpd pages) pages

/-- Model of `saveCurrentPage` (src/content.js:227-259), the debounced flush.
The persistence boundary is explicit: `loadFails`/`saveFails` say
whether `loadAllPages`/`saveAllPages` throw (both caught by the
function's `try`/`catch`, which leaves the durable store and the staged
map untouched).  On success the staged map is cleared and the eviction
policy runs over the just-written store. -/
def saveCurrentPage (loadFails saveFails : Bool) (quota : Option Nat)
    (bytes : Pages → Nat) (now : Nat) (url key : String)
    (store : Pages) (changed : ChangedMap) : Pages × ChangedMap :=
  if changed.isEmpty then (store, changed)
  else if loadFails then (store, changed)
  else
    let existing := (lookupEntry store key).map (·.data)
    let merged := mergeData existing changed
    let pages' := setEntry store key ⟨now, url, merged.map (·.2)⟩
    if saveFails then (store, changed)
    else (cleanupIfNeeded quota bytes pages', ([] : ChangedMap))

/-- What one `applyToElement` call did: whether it applied, the element
afterwards, and the elements that received synthetic `input`/`change`
events (`dispatchInputChange`). -/
structure ApplyResult where
  applied : Bool
  el : Option Elem
  events : List Elem
deriving Repr

/-- Model of `applyToElement` (src/content.js:333-344): reject untrackable
elements; for a radio element with a radio-shaped stored value, require
the live value attribute to equal the stored one before writing. -/
def applyToElement (el? : Option Elem) (item : Item) : ApplyResult :=
  match el? with
  | none => ⟨false, none, []⟩
  | some el =>
    if ¬ isUsableControl el then ⟨false, some el, []⟩
    else
      let radioMismatch : Bool :=
        el.tagName == "INPUT" && typeResolved el == "radio" &&
          (match item.value with
          | some (.radio _ v) => el.value != v
          | _ => false)
      if radioMismatch then ⟨false, some el, []⟩
      else
        let el' := writeControlValue el item.value
        ⟨true, some el', [el']⟩

/-- A document: the page's form-control elements in document order. -/
abbrev Doc := List Elem

/-- Model of `document.querySelector` on a structural-path selector — resolution
of a css path against the live document is abstracted as a lookup
returning a document index. -/
abbrev PathSel := String → List Elem → Option Nat

/-- Model of `findElementByStableId` (src/content.js:261-279), as a document
index.  `getElementById("")` finds nothing; a name identity resolves by
`tag[name="..."]`, the first matching element in document order. -/
def findElementByStableId (pathSel : PathSel) (stable : Option StableId)
    (doc : List Elem) : Option Nat :=
  match stable with
  | none => none
  | some (.id v) => if v = "" then none else doc.findIdx? (fun el => el.idAttr == v)
  | some (.name v t) =>
      doc.findIdx? (fun el => el.tagName == t && el.nameAttr == some v)
  | some (.path v) => pathSel v doc

/-- Indices of the elements `querySelectorAll(tag[name="..."])` returns,
in document order. -/
def nameGroupIdxs (t v : String) (doc : List Elem) : List Nat :=
  (List.range doc.length).filter (fun i =>
    match doc.get? i with
    | some el => el.tagName == t && el.nameAttr == some v
    | none => false)

/-- Apply one item to each listed index in turn, threading the document
and collecting events; `any` is true when at least one apply succeeded
(the name-group loop of `tryRestoreItems`). -/
def applyToAll (item : Item) : List Nat → List Elem → List Elem × Bool × List Elem
  | [], doc => (doc, false, [])
  | i :: is, doc =>
    let r := applyToElement (doc.get? i) item
    let doc' := match r.el with
      | some el' => if r.applied then doc.set i el' else doc
      | none => doc
    let (doc'', any, evs) := applyToAll item is doc'
    (doc'', r.applied || any, r.events ++ evs)

/-- Apply an item at one located index, if any. -/
def applyAt (item : Item) (ix : Option Nat) (doc : List Elem) :
    Bool × List Elem × List Elem :=
  match ix with
  | none => ((applyToElement none item).applied, doc, [])
  | some i =>
    let r := applyToElement (doc.get? i) item
    match r.el with
    | some el' => (r.applied, if r.applied then doc.set i el' else doc, r.events)
    | none => (r.applied, doc, r.events)

/-- Model of `tryRestoreItems` (src/content.js:346-391): one matching pass over
the pending items — name-group application first, then the direct
stable locator, then the fingerprint best match.  Returns the document
afterwards, the items still pending, the dispatched events, and the
`changed` flag. -/
def tryRestoreItems (pathSel : PathSel) :
    List (String × Item) → List Elem → List Elem × List (String × Item) × List Elem × Bool
  | [], doc => (doc, [], [], false)
  | (k, item) :: rest, doc =>
    let step1 :=
      match item.id with
      | some (.name v t) =>
        if v ≠ "" ∧ t ≠ "" then
          let idxs := (nameGroupIdxs t v doc).filter (fun i =>
            match doc.get? i with
            | some el => isUsableControl el
            | none => false)
          some (applyToAll item idxs doc)
        else none
      | _ => none
    match step1 with
    | some (doc1, true, ev1) =>
      let (d, p, ev, _) := tryRestoreItems pathSel rest doc1
      (d, p, ev1 ++ ev, true)
    | _ =>
      let (ok2, doc2, ev2) :=
        applyAt item (findElementByStableId pathSel item.id doc) doc
      if ok2 then
        let (d, p, ev, _) := tryRestoreItems pathSel rest doc2
        (d, p, ev2 ++ ev, true)
      else
        let (ok3, doc3, ev3) :=
          applyAt item (findBestByFingerprint item.fingerprint doc2) doc2
        if ok3 then
          let (d, p, ev, _) := tryRestoreItems pathSel rest doc3
          (d, p, ev3 ++ ev, true)
        else
          let (d, p, ev, ch) := tryRestoreItems pathSel rest doc3
          (d, (k, item) :: p, ev, ch)

/-- The result a restore request reports back. -/
structure RestoreResult where
  ok : Bool
  reason : Option String
  missing : Option Nat
deriving DecidableEq, Repr

/-- The pending map of `restoreWithRetries`: every item of the record,
keyed by its stable key (later duplicates overwrite, `Map.set`). -/
def buildPending (items : List Item) : List (String × Item) :=
  items.foldl (fun m it => setEntry m (stableKey it.id) it) []

/-- The matching passes of `restoreWithRetries`: the initial attempt
plus one rerun per observed mutation batch, stopping early once nothing
is pending.  `passes` bounds how many runs fit before the timeout. -/
def runPasses (pathSel : PathSel) :
    Nat → List (String × Item) → List Elem → List Elem × List (String × Item) × List Elem
  | 0, pending, doc => (doc, pending, [])
  | n + 1, pending, doc =>
    let (doc', p', ev, _) := tryRestoreItems pathSel pending doc
    if p'.isEmpty then (doc', p', ev)
    else
      let (d, q, ev2) := runPasses pathSel n p' doc'
      (d, q, ev ++ ev2)

/-- Model of `restoreWithRetries` (src/content.js:393-424): success iff nothing
stayed pending; a timeout reports the count of unmatched fields. -/
def restoreWithRetries (pathSel : PathSel) (passes : Nat) (entry : PageRecord)
    (doc : List Elem) : RestoreResult × List Elem × List Elem :=
  let pending := buildPending entry.data
  let (doc', p', ev) := runPasses pathSel (passes + 1) pending doc
  (⟨p'.isEmpty, none, if p'.isEmpty then none else some p'.length⟩, doc', ev)

/-- Model of `restoreCurrentPage` (src/content.js:426-438): no record for the
page key means an immediate failure report, before any DOM work. -/
def restoreCurrentPage (pathSel : PathSel) (passes : Nat) (pages : Pages)
    (key : String) (doc : List Elem) : RestoreResult × List Elem × List Elem :=
  match lookupEntry pages key with
  | none => (⟨false, some "No saved data for this page.", none⟩, doc, [])
  | some entry => restoreWithRetries pathSel passes entry doc

/-! ### Concrete fixtures used by witness theorems -/

/-- A plain enabled text input, the base fixture for witnesses. -/
def elText : Elem where
  tagName := "INPUT"
  typeAttr := some "text"
  nameAttr := some "email"
  idAttr := ""
  placeholderAttr := none
  autocompleteAttr := none
  ariaLabelAttr := none
  ariaLabelledByAttr := none
  testid := ""
  formAction := "/form"
  labelText := ""
  pathStr := "form:nth-of-type(1) > input:nth-of-type(1)"
  disabled := false
  value := "a@b.com"
  checked := false
  multiple := false
  options := []

/-- An enabled radio input named `plan` with value attribute `basic`. -/
def elRadioBasic : Elem :=
  { elText with typeAttr := some "radio", nameAttr := some "plan", value := "basic" }

/-- The stored field record of the checked `plan=pro` radio. -/
def itemRadioPro : Item where
  id := some (.name "plan" "INPUT")
  tag := "INPUT"
  type := some "radio"
  value := some (.radio true "pro")
  fingerprint := none

/-- The tag slot of a `name` identity contains no `':'` — true of every
identity that identity resolution produces, since the tag is the
element's tag name and the script only resolves trackable controls
(`INPUT`, `TEXTAREA`, `SELECT`). -/
def colonFreeTag : StableId → Prop
  | .name _ t => ':' ∉ t.data
  | _ => True

/-- The previously persisted store fixture: one record under `"k"` with
two items, keyed `id:em` and `id:zz`. -/
def storeW : Pages :=
  [("k", ⟨1, "https://a.test/p",
    [{ itemRadioPro with id := some (.id "em"), tag := "OLD" },
     { itemRadioPro with id := some (.id "zz"), tag := "KEEP" }]⟩)]

/-- The staged-change fixture: a fresh value for the `id:em` key. -/
def changedW : ChangedMap :=
  [("id:em", { itemRadioPro with id := some (.id "em"), tag := "NEW" })]

/-- At most one option carries the selected flag — the state every real
single-select keeps. -/
def atMostOneSelected (opts : List Opt) : Prop :=
  ∀ i j oi oj, opts.get? i = some oi → opts.get? j = some oj →
    oi.selected = true → oj.selected = true → i = j

/-- Re-assigning the current select value re-anchors to the same option:
the first option carrying the select's value is the selected one (and,
with nothing selected, no option carries the empty value). -/
def selectValueStable (opts : List Opt) : Prop :=
  opts.findIdx? (fun o => o.value = selectValueOf opts) = opts.findIdx? (·.selected)

/-- The C3 counterexample element: a single select whose selected option
is preceded by another option with the same value. -/
def selDup : Elem :=
  { elText with
      tagName := "SELECT"
      typeAttr := none
      nameAttr := none
      options := [⟨"x", false⟩, ⟨"x", true⟩] }

/-- The shape/kind agreement of §4.4: the stored value's variant matches
the variant the element's own control kind reads. -/
def shapeMatches (el : Elem) (d : ControlValue) : Bool :=
  match readControlValue el, d with
  | some (.checkbox _), .checkbox _ => true
  | some (.radio _ _), .radio _ _ => true
  | some (.input _), .input _ => true
  | some (.textarea _), .textarea _ => true
  | some (.selectMultiple _ _), .selectMultiple _ _ => true
  | some (.select _ _), .select _ _ => true
  | _, _ => false

/-- The C4 counterexample element: an enabled checkbox input. -/
def elCheckbox : Elem :=
  { elText with typeAttr := some "checkbox", nameAttr := some "agree", value := "on" }

/-! ### C5: restore with no page record -/

/-- C5: for every page whose key has no record in the persisted store, a
restore request returns `ok:false` with reason "No saved data for this
page.", leaves every element of the document unchanged and dispatches no
synthetic event. -/
theorem restore_no_record (pathSel : PathSel) (passes : Nat) (pages : Pages)
    (key : String) (doc : Doc)
    (h : lookupEntry pages key = none) :
    restoreCurrentPage pathSel passes pages key doc =
      (⟨false, some "No saved data for this page.", none⟩, doc, []) := by
  unfold restoreCurrentPage
  rw [h]

/-- C5 witness: a concrete empty store and one-element document. -/
theorem restore_no_record_witness :
    lookupEntry ([] : Pages) "https://a.test/p?q=1" = none ∧
    restoreCurrentPage (fun _ _ => none) 3 ([] : Pages) "https://a.test/p?q=1" [elText] =
      (⟨false, some "No saved data for this page.", none⟩, [elText], []) :=
  ⟨rfl, restore_no_record (fun _ _ => none) 3 [] "https://a.test/p?q=1" [elText] rfl⟩

/-! ### C6: the radio value gate of `applyToElement` -/

/-- C6: restore applies a stored radio value to a live radio element
only when the element's value attribute equals the stored radio's value;
on a mismatch the element is skipped unchanged and the application
reports not-applied, and on a match the stored checkedness is written
(and the synthetic events fire on the written element). -/
theorem applyToElement_radio_gate (el : Elem) (item : Item) (c : Bool) (v : String)
    (hval : item.value = some (.radio c v))
    (hu : isUsableControl el = true)
    (htag : el.tagName = "INPUT")
    (hty : typeResolved el = "radio") :
    (el.value ≠ v →
      applyToElement (some el) item = ⟨false, some el, []⟩) ∧
    (el.value = v →
      applyToElement (some el) item =
        ⟨true, some { el with checked := c }, [{ el with checked := c }]⟩) := by
  constructor
  · intro hne
    simp [applyToElement, hu, hval, htag, hty, hne]
  · intro heq
    simp [applyToElement, hu, hval, htag, hty, heq, writeControlValue]

/-- C6 witness: the stored checked `plan=pro` radio is not applied to
the live `plan=basic` radio (left unchanged, no events), and is applied
to the live `plan=pro` radio. -/
theorem applyToElement_radio_gate_witness :
    applyToElement (some elRadioBasic) itemRadioPro = ⟨false, some elRadioBasic, []⟩ ∧
    applyToElement (some { elRadioBasic with value := "pro" }) itemRadioPro =
      ⟨true, some { elRadioBasic with value := "pro", checked := true },
        [{ elRadioBasic with value := "pro", checked := true }]⟩ :=
  ⟨(applyToElement_radio_gate elRadioBasic itemRadioPro true "pro"
      (by decide) (by decide) (by decide) (by decide)).1 (by decide),
   (applyToElement_radio_gate { elRadioBasic with value := "pro" } itemRadioPro true "pro"
      (by decide) (by decide) (by decide) (by decide)).2 (by decide)⟩

/-! ### C8: a failed flush is atomic -/

/-- C8: if the persistence read or the persistence write of a flush
fails, the flush aborts with the durable store and the staged change map
both unchanged; the staged map is cleared only by a flush whose write
succeeded. -/
theorem saveCurrentPage_failure_atomic (lf sf : Bool) (quota : Option Nat)
    (bytes : Pages → Nat) (now : Nat) (url key : String)
    (store : Pages) (changed : ChangedMap)
    (h : lf = true ∨ sf = true) :
    saveCurrentPage lf sf quota bytes now url key store changed = (store, changed) ∧
    (saveCurrentPage false false quota bytes now url key store changed).2.isEmpty = true := by
  constructor
  · unfold saveCurrentPage
    rcases h with h | h <;> subst h
    · by_cases hc : changed.isEmpty <;> simp [hc]
    · by_cases hc : changed.isEmpty <;> cases lf <;> simp [hc]
  · unfold saveCurrentPage
    by_cases hc : changed.isEmpty <;> simp [hc]

/-- C8 witness: a concrete failed flush retains the staged change, and
the same flush with working storage clears it. -/
theorem saveCurrentPage_failure_atomic_witness :
    saveCurrentPage true false none (fun _ => 0) 7 "https://a.test/p" "k"
        ([] : Pages) [("name:INPUT:plan", itemRadioPro)] =
      (([] : Pages), [("name:INPUT:plan", itemRadioPro)]) ∧
    (saveCurrentPage false false none (fun _ => 0) 7 "https://a.test/p" "k"
        ([] : Pages) [("name:INPUT:plan", itemRadioPro)]).2.isEmpty = true :=
  saveCurrentPage_failure_atomic true false none (fun _ => 0) 7 "https://a.test/p" "k"
    [] [("name:INPUT:plan", itemRadioPro)] (Or.inl rfl)

/-! ### The best-candidate fold, characterised -/

/-- Full characterisation of the `findBestByFingerprint` fold: either no
scanned trackable element strictly beats the accumulator (returned
unchanged), or the fold returns the first trackable element that strictly
beats the accumulator and every earlier trackable element, with no later
trackable element scoring higher. -/
theorem findBestAux_spec (fp : Fingerprint) (l : List Elem) :
    ∀ (i : Nat) (b : Option Nat) (s : Nat),
      (findBestAux fp l i (b, s) = (b, s) ∧
        ∀ k el, l.get? k = some el → isUsableControl el = true →
          scoreMatch (some fp) el ≤ s) ∨
      (∃ k el, l.get? k = some el ∧ isUsableControl el = true ∧
        s < scoreMatch (some fp) el ∧
        findBestAux fp l i (b, s) = (some (i + k), scoreMatch (some fp) el) ∧
        (∀ k' el', k' < k → l.get? k' = some el' → isUsableControl el' = true →
          scoreMatch (some fp) el' < scoreMatch (some fp) el) ∧
        (∀ k' el', k < k' → l.get? k' = some el' → isUsableControl el' = true →
          scoreMatch (some fp) el' ≤ scoreMatch (some fp) el)) := by
  induction l with
  | nil =>
    intro i b s
    exact Or.inl ⟨rfl, fun k el hk => by simp at hk⟩
  | cons e rest ih =>
    intro i b s
    by_cases hu : isUsableControl e = true
    · by_cases hs : s < scoreMatch (some fp) e
      · have hstep : findBestAux fp (e :: rest) i (b, s)
            = findBestAux fp rest (i + 1) (some i, scoreMatch (some fp) e) := by
          simp [findBestAux, hu, hs]
        rcases ih (i + 1) (some i) (scoreMatch (some fp) e) with
          ⟨heq, hle⟩ | ⟨k1, el1, hget, hu1, hlt1, heq1, hbef, haft⟩
        · refine Or.inr ⟨0, e, rfl, hu, hs, ?_, ?_, ?_⟩
          · rw [hstep, heq]
            simp
          · intro k' el' hk' hg hu'
            exact absurd hk' (Nat.not_lt_zero _)
          · intro k' el' hk' hg hu'
            cases k' with
            | zero => exact absurd hk' (lt_irrefl 0)
            | succ k'' => exact hle k'' el' hg hu'
        · refine Or.inr ⟨k1 + 1, el1, hget, hu1, lt_trans hs hlt1, ?_, ?_, ?_⟩
          · rw [hstep, heq1]
            have harith : i + 1 + k1 = i + (k1 + 1) := by omega
            rw [harith]
          · intro k' el' hk' hg hu'
            cases k' with
            | zero =>
              simp at hg
              subst hg
              exact hlt1
            | succ k'' => exact hbef k'' el' (by omega) hg hu'
          · intro k' el' hk' hg hu'
            cases k' with
            | zero => exact absurd hk' (by omega)
            | succ k'' => exact haft k'' el' (by omega) hg hu'
      · have hstep : findBestAux fp (e :: rest) i (b, s)
            = findBestAux fp rest (i + 1) (b, s) := by
          simp [findBestAux, hu, hs]
        rcases ih (i + 1) b s with
          ⟨heq, hle⟩ | ⟨k1, el1, hget, hu1, hlt1, heq1, hbef, haft⟩
        · refine Or.inl ⟨by rw [hstep, heq], ?_⟩
          intro k el hk hu'
          cases k with
          | zero =>
            simp at hk
            subst hk
            omega
          | succ k'' => exact hle k'' el hk hu'
        · refine Or.inr ⟨k1 + 1, el1, hget, hu1, hlt1, ?_, ?_, ?_⟩
          · rw [hstep, heq1]
            have harith : i + 1 + k1 = i + (k1 + 1) := by omega
            rw [harith]
          · intro k' el' hk' hg hu'
            cases k' with
            | zero =>
              simp at hg
              subst hg
              omega
            | succ k'' => exact hbef k'' el' (by omega) hg hu'
          · intro k' el' hk' hg hu'
            cases k' with
            | zero => exact absurd hk' (by omega)
            | succ k'' => exact haft k'' el' (by omega) hg hu'
    · have hstep : findBestAux fp (e :: rest) i (b, s)
          = findBestAux fp rest (i + 1) (b, s) := by
        simp [findBestAux, hu]
      rcases ih (i + 1) b s with
        ⟨heq, hle⟩ | ⟨k1, el1, hget, hu1, hlt1, heq1, hbef, haft⟩
      · refine Or.inl ⟨by rw [hstep, heq], ?_⟩
        intro k el hk hu'
        cases k with
        | zero =>
          simp at hk
          subst hk
          exact absurd hu' hu
        | succ k'' => exact hle k'' el hk hu'
      · refine Or.inr ⟨k1 + 1, el1, hget, hu1, hlt1, ?_, ?_, ?_⟩
        · rw [hstep, heq1]
          have harith : i + 1 + k1 = i + (k1 + 1) := by omega
          rw [harith]
        · intro k' el' hk' hg hu'
          cases k' with
          | zero =>
            simp at hg
            subst hg
            exact absurd hu' hu
          | succ k'' => exact hbef k'' el' (by omega) hg hu'
        · intro k' el' hk' hg hu'
          cases k' with
          | zero => exact absurd hk' (by omega)
          | succ k'' => exact haft k'' el' (by omega) hg hu'

/-! ### C1: the fingerprint fallback picks the first best candidate, at
score ≥ 12 only -/

/-- C1: the fingerprint fallback returns document index `i` exactly when
the element there is trackable, its additive score reaches the
acceptance threshold 12, no trackable control beats that score, and
every earlier trackable control scores strictly lower (so on ties the
first candidate in document order wins, and a best score of 11 is never
applied). -/
theorem findBestByFingerprint_argmax (fp : Fingerprint) (doc : Doc) (i : Nat) :
    findBestByFingerprint (some fp) doc = some i ↔
      ∃ el, doc.get? i = some el ∧ isUsableControl el = true ∧
        12 ≤ scoreMatch (some fp) el ∧
        (∀ j el', doc.get? j = some el' → isUsableControl el' = true →
          scoreMatch (some fp) el' ≤ scoreMatch (some fp) el) ∧
        (∀ j el', j < i → doc.get? j = some el' → isUsableControl el' = true →
          scoreMatch (some fp) el' < scoreMatch (some fp) el) := by
  have hdef : findBestByFingerprint (some fp) doc =
      (if 12 ≤ (findBestAux fp doc 0 (none, 0)).2
        then (findBestAux fp doc 0 (none, 0)).1 else none) := rfl
  constructor
  · intro h
    rw [hdef] at h
    rcases findBestAux_spec fp doc 0 none 0 with
      ⟨heq, _⟩ | ⟨k, el, hget, hu, _, heq, hbef, haft⟩
    · rw [heq] at h
      simp at h
    · rw [heq] at h
      by_cases h12 : 12 ≤ scoreMatch (some fp) el
      · simp [h12] at h
        subst h
        refine ⟨el, by simpa using hget, hu, h12, ?_, ?_⟩
        · intro j el' hg hu'
          rcases Nat.lt_trichotomy j k with hj | hj | hj
          · exact le_of_lt (hbef j el' hj hg hu')
          · subst hj
            rw [hget] at hg
            cases hg
            exact le_refl _
          · exact haft j el' hj hg hu'
        · intro j el' hj hg hu'
          exact hbef j el' (by omega) hg hu'
      · simp [h12] at h
  · rintro ⟨el, hget, hu, h12, hglob, hbef⟩
    rw [hdef]
    rcases findBestAux_spec fp doc 0 none 0 with
      ⟨heq, hle⟩ | ⟨k, el1, hget1, hu1, _, heq1, hbef1, haft1⟩
    · have := hle i el hget hu
      omega
    · have hk : k = i := by
        rcases Nat.lt_trichotomy k i with hj | hj | hj
        · have h1 := hbef k el1 hj hget1 hu1
          have h2 := haft1 i el (by omega) hget hu
          omega
        · exact hj
        · have h1 := hbef1 i el (by omega) hget hu
          have h2 := hglob k el1 hget1 hu1
          omega
      subst hk
      rw [hget1] at hget
      cases hget
      rw [heq1]
      simp [h12]

/-- C1 witness: on a two-element document where both controls score 18
for the stored fingerprint, the first one in document order is chosen. -/
theorem findBestByFingerprint_argmax_witness :
    findBestByFingerprint (some (getFingerprint elText)) [elText, { elText with value := "x" }] =
      some 0 := by
  decide

/-! ### C10: an all-empty fingerprint can never reach the threshold -/

/-- C10: when every textual fingerprint field (name, test-id,
placeholder, autocomplete, aria-label, label text) is empty, no element
can score more than 8 (= tag 3 + subtype 3 + form-action 2), which is
strictly below the acceptance threshold 12, so the fingerprint fallback
selects no candidate on any document. -/
theorem empty_fingerprint_never_matches (fp : Fingerprint)
    (h1 : fp.name = "") (h2 : fp.testid = "") (h3 : fp.placeholder = "")
    (h4 : fp.autocomplete = "") (h5 : fp.ariaLabel = "") (h6 : fp.labelText = "") :
    (∀ el : Elem, scoreMatch (some fp) el ≤ 8) ∧
    (∀ doc : Doc, findBestByFingerprint (some fp) doc = none) := by
  have hbound : ∀ el : Elem, scoreMatch (some fp) el ≤ 8 := by
    intro el
    unfold scoreMatch
    simp [h1, h2, h3, h4, h5, h6]
    split <;> split <;> split <;> omega
  refine ⟨hbound, ?_⟩
  intro doc
  have hdef : findBestByFingerprint (some fp) doc =
      (if 12 ≤ (findBestAux fp doc 0 (none, 0)).2
        then (findBestAux fp doc 0 (none, 0)).1 else none) := rfl
  rw [hdef]
  rcases findBestAux_spec fp doc 0 none 0 with
    ⟨heq, _⟩ | ⟨k, el, _, _, _, heq, _, _⟩
  · rw [heq]
    simp
  · rw [heq]
    have := hbound el
    have h12 : ¬ 12 ≤ scoreMatch (some fp) el := by omega
    simp [h12]

/-- C10 witness: a concrete fingerprint with all six fields empty finds
nothing even on a document whose control matches tag, subtype and form
action. -/
theorem empty_fingerprint_never_matches_witness :
    (⟨"INPUT", "text", "", "", "", "", "", "", "", "/form"⟩ : Fingerprint).name = "" ∧
    findBestByFingerprint
      (some (⟨"INPUT", "text", "", "", "", "", "", "", "", "/form"⟩ : Fingerprint))
      [elText] = none :=
  ⟨rfl,
    (empty_fingerprint_never_matches ⟨"INPUT", "text", "", "", "", "", "", "", "", "/form"⟩
      rfl rfl rfl rfl rfl rfl).2 [elText]⟩

/-! ### C2: stable keys are injective over resolved identities -/


/-- Splitting at a separator character that occurs in neither prefix is
unambiguous. -/
theorem append_sep_inj (t1 : List Char) :
    ∀ (v1 t2 v2 : List Char), ':' ∉ t1 → ':' ∉ t2 →
      t1 ++ ':' :: v1 = t2 ++ ':' :: v2 → t1 = t2 ∧ v1 = v2 := by
  induction t1 with
  | nil =>
    intro v1 t2 v2 _ h2 heq
    cases t2 with
    | nil => simpa using heq
    | cons c t2' =>
      simp at heq
      exact absurd (heq.1 ▸ List.mem_cons_self c t2') h2
  | cons c t1' ih =>
    intro v1 t2 v2 h1 h2 heq
    cases t2 with
    | nil =>
      simp at heq
      exact absurd (heq.1 ▸ List.mem_cons_self c t1') h1
    | cons c2 t2' =>
      simp at heq
      obtain ⟨hc, htail⟩ := heq
      have h1' : ':' ∉ t1' := fun hm => h1 (List.mem_cons_of_mem _ hm)
      have h2' : ':' ∉ t2' := fun hm => h2 (List.mem_cons_of_mem _ hm)
      obtain ⟨he, hv⟩ := ih v1 t2' v2 h1' h2' htail
      exact ⟨by rw [hc, he], hv⟩

/-- C2: stable-key derivation is deterministic (it is a function) and
injective over the identities identity resolution produces: resolving a
trackable control always yields an identity whose tag slot is
colon-free, and two colon-free identities with the same stable key are
the same identity. -/
theorem stableKey_injective :
    (∀ el : Elem, isUsableControl el = true → colonFreeTag (getStableId el)) ∧
    (∀ a b : StableId, colonFreeTag a → colonFreeTag b →
      stableKey (some a) = stableKey (some b) → a = b) := by
  constructor
  · intro el hu
    have htag : el.tagName = "INPUT" ∨ el.tagName = "TEXTAREA" ∨ el.tagName = "SELECT" := by
      unfold isUsableControl at hu
      by_cases hd : el.disabled
      · simp [hd] at hu
      · by_cases hi : el.tagName = "INPUT"
        · exact Or.inl hi
        · simp [hd, hi] at hu
          rcases hu with h | h
          · exact Or.inr (Or.inl h)
          · exact Or.inr (Or.inr h)
    unfold getStableId
    by_cases hid : el.idAttr ≠ ""
    · simp [hid, colonFreeTag]
    · by_cases hnm : orDefault el.nameAttr "" ≠ ""
      · simp [hid, hnm, colonFreeTag]
        rcases htag with h | h | h <;> rw [h] <;> decide
      · simp [hid, hnm, colonFreeTag]
  · intro a b ha hb heq
    have hdata := congrArg String.data heq
    cases a with
    | id v1 =>
      cases b with
      | id v2 =>
        simp [stableKey, String.data_append] at hdata
        exact congrArg StableId.id (String.ext hdata)
      | name v2 t2 =>
        simp [stableKey, String.data_append] at hdata
      | path v2 =>
        simp [stableKey, String.data_append] at hdata
    | name v1 t1 =>
      cases b with
      | id v2 =>
        simp [stableKey, String.data_append] at hdata
      | name v2 t2 =>
        simp [stableKey, String.data_append] at hdata
        obtain ⟨ht, hv⟩ := append_sep_inj t1.data v1.data t2.data v2.data ha hb hdata
        rw [String.ext ht, String.ext hv]
      | path v2 =>
        simp [stableKey, String.data_append] at hdata
    | path v1 =>
      cases b with
      | id v2 =>
        simp [stableKey, String.data_append] at hdata
      | name v2 t2 =>
        simp [stableKey, String.data_append] at hdata
      | path v2 =>
        simp [stableKey, String.data_append] at hdata
        exact congrArg StableId.path (String.ext hdata)

/-- C2 witness: a trackable control resolves to a colon-free identity,
and two concrete distinct identities with equal keys coincide only when
they are equal. -/
theorem stableKey_injective_witness :
    colonFreeTag (getStableId elText) ∧
    (stableKey (some (.name "plan" "INPUT")) = stableKey (some (.name "plan" "INPUT")) →
      (StableId.name "plan" "INPUT") = .name "plan" "INPUT") :=
  ⟨stableKey_injective.1 elText (by decide),
   fun h => stableKey_injective.2 (.name "plan" "INPUT") (.name "plan" "INPUT")
     (show ':' ∉ ("INPUT" : String).data by decide)
     (show ':' ∉ ("INPUT" : String).data by decide) h⟩

/-! ### C7: the eviction policy -/

/-- Every member of an insertion result is the inserted key or an
original member. -/
theorem mem_insertByUpd (pages : Pages) (k : String) :
    ∀ (l : List String) (y : String), y ∈ insertByUpd pages k l → y = k ∨ y ∈ l := by
  intro l
  induction l with
  | nil =>
    intro y hy
    simp [insertByUpd] at hy
    exact Or.inl hy
  | cons x xs ih =>
    intro y hy
    unfold insertByUpd at hy
    by_cases hc : updAt pages k < updAt pages x
    · simp [hc] at hy
      rcases hy with h | h | h
      · exact Or.inl h
      · exact Or.inr (by simp [h])
      · exact Or.inr (by simp [h])
    · simp [hc] at hy
      rcases hy with h | h
      · exact Or.inr (by simp [h])
      · rcases ih y h with h' | h'
        · exact Or.inl h'
        · exact Or.inr (by simp [h'])

/-- Insertion keeps the list pairwise-sorted by `updAt`. -/
theorem insertByUpd_pairwise (pages : Pages) (k : String) :
    ∀ l : List String,
      List.Pairwise (fun a b => updAt pages a ≤ updAt pages b) l →
      List.Pairwise (fun a b => updAt pages a ≤ updAt pages b) (insertByUpd pages k l) := by
  intro l
  induction l with
  | nil =>
    intro _
    simp [insertByUpd]
  | cons x xs ih =>
    intro hp
    rw [List.pairwise_cons] at hp
    obtain ⟨hx, hxs⟩ := hp
    unfold insertByUpd
    by_cases hc : updAt pages k < updAt pages x
    · simp [hc]
      refine ⟨⟨le_of_lt hc, ?_⟩, hx, hxs⟩
      intro a ha
      have := hx a ha
      omega
    · simp [hc]
      refine ⟨?_, ih hxs⟩
      intro y hy
      rcases mem_insertByUpd pages k xs y hy with h | h
      · rw [h]; omega
      · exact hx y h

/-- The oldest-first key list of `cleanupIfNeeded` is pairwise sorted by
`updatedAt`, ascending. -/
theorem sortKeysByUpd_pairwise (pages : Pages) :
    List.Pairwise (fun a b => updAt pages a ≤ updAt pages b) (sortKeysByUpd pages) := by
  unfold sortKeysByUpd
  generalize pages.map (·.1) = ks
  induction ks with
  | nil => simp
  | cons k ks ih => exact insertByUpd_pairwise pages k _ ih

/-- The deletion loop deletes a minimal prefix of its key list: it stops
as soon as usage is at or under target, and only runs out of keys when
the target was never reached. -/
theorem evictLoop_spec (target : Nat) (bytes : Pages → Nat) :
    ∀ (ks : List String) (pages : Pages),
      ∃ n, n ≤ ks.length ∧
        evictLoop target bytes ks pages = deleteKeys (ks.take n) pages ∧
        (bytes (deleteKeys (ks.take n) pages) ≤ target ∨ n = ks.length) ∧
        (∀ m, m < n → target < bytes (deleteKeys (ks.take m) pages)) := by
  intro ks
  induction ks with
  | nil =>
    intro pages
    exact ⟨0, le_refl 0, rfl, Or.inr rfl, fun m hm => absurd hm (Nat.not_lt_zero m)⟩
  | cons k ks ih =>
    intro pages
    by_cases hb : bytes pages ≤ target
    · refine ⟨0, Nat.zero_le _, ?_, Or.inl (by simpa [deleteKeys] using hb),
        fun m hm => absurd hm (Nat.not_lt_zero m)⟩
      simp [evictLoop, hb, deleteKeys]
    · obtain ⟨n, hn, heq, hstop, hmin⟩ := ih (deleteKey pages k)
      refine ⟨n + 1, by simpa using hn, ?_, ?_, ?_⟩
      · have : evictLoop target bytes (k :: ks) pages
            = evictLoop target bytes ks (deleteKey pages k) := by
          simp [evictLoop, hb]
        rw [this, heq]
        simp [deleteKeys]
      · rcases hstop with h | h
        · left
          simpa [deleteKeys] using h
        · right
          simp [h]
      · intro m hm
        cases m with
        | zero =>
          simp only [List.take_zero]
          simpa [deleteKeys] using Nat.lt_of_not_le hb
        | succ m' =>
          have := hmin m' (by omega)
          simpa [deleteKeys] using this

/-- C7: with an unknown capacity the eviction policy deletes nothing;
with capacity `q > 0` it deletes a minimal oldest-`updatedAt`-first
prefix of the page records, stopping once usage is at most
`⌊q * 90 / 100⌋` or the store's keys are exhausted, and the candidate
order is sorted ascending by `updatedAt`. -/
theorem cleanupIfNeeded_policy (bytes : Pages → Nat) (pages : Pages) :
    cleanupIfNeeded none bytes pages = pages ∧
    List.Pairwise (fun a b => updAt pages a ≤ updAt pages b) (sortKeysByUpd pages) ∧
    (∀ q : Nat, 0 < q →
      ∃ n, n ≤ (sortKeysByUpd pages).length ∧
        cleanupIfNeeded (some q) bytes pages =
          deleteKeys ((sortKeysByUpd pages).take n) pages ∧
        (bytes (deleteKeys ((sortKeysByUpd pages).take n) pages) ≤ q * 9 / 10 ∨
          n = (sortKeysByUpd pages).length) ∧
        (∀ m, m < n →
          q * 9 / 10 < bytes (deleteKeys ((sortKeysByUpd pages).take m) pages))) := by
  refine ⟨rfl, sortKeysByUpd_pairwise pages, ?_⟩
  intro q hq
  have hq0 : ¬ q = 0 := by omega
  by_cases hb : bytes pages ≤ q * 9 / 10
  · refine ⟨0, Nat.zero_le _, ?_, Or.inl (by simpa [deleteKeys] using hb),
      fun m hm => absurd hm (Nat.not_lt_zero m)⟩
    simp [cleanupIfNeeded, hq0, hb, deleteKeys]
  · have : cleanupIfNeeded (some q) bytes pages
        = evictLoop (q * 9 / 10) bytes (sortKeysByUpd pages) pages := by
      simp [cleanupIfNeeded, hq0, hb]
    rw [this]
    exact evictLoop_spec (q * 9 / 10) bytes (sortKeysByUpd pages) pages

/-- C7 witness: three records of 50 bytes each under a 100-byte quota
(target 90): the two oldest are evicted, the newest survives; with no
quota figure nothing is deleted. -/
theorem cleanupIfNeeded_policy_witness :
    cleanupIfNeeded none (fun p => 50 * p.length)
      [("a", ⟨5, "u", []⟩), ("b", ⟨2, "u", []⟩), ("c", ⟨9, "u", []⟩)] =
      [("a", ⟨5, "u", []⟩), ("b", ⟨2, "u", []⟩), ("c", ⟨9, "u", []⟩)] ∧
    cleanupIfNeeded (some 100) (fun p => 50 * p.length)
      [("a", ⟨5, "u", []⟩), ("b", ⟨2, "u", []⟩), ("c", ⟨9, "u", []⟩)] =
      [("c", ⟨9, "u", []⟩)] :=
  ⟨(cleanupIfNeeded_policy (fun p => 50 * p.length)
      [("a", ⟨5, "u", []⟩), ("b", ⟨2, "u", []⟩), ("c", ⟨9, "u", []⟩)]).1,
   by decide⟩

/-! ### C9: the flush merge, per stable key -/

/-- Setting then reading back (`Map.set` / `Map.get`): the set key reads back the new value,
every other key is untouched. -/
theorem lookupEntry_setEntry {α : Type} (m : List (String × α)) (k : String) (v : α)
    (k' : String) :
    lookupEntry (setEntry m k v) k' = if k' = k then some v else lookupEntry m k' := by
  induction m with
  | nil =>
    simp only [setEntry, lookupEntry]
    by_cases h : k' = k
    · subst h
      simp
    · rw [if_neg (fun hh : k = k' => h hh.symm), if_neg h]
  | cons p rest ih =>
    obtain ⟨k0, v0⟩ := p
    by_cases h0 : k0 = k
    · subst h0
      simp only [setEntry, if_pos rfl, lookupEntry]
      by_cases h : k' = k0
      · subst h
        simp
      · rw [if_neg (fun hh : k0 = k' => h hh.symm), if_neg h,
          if_neg (fun hh : k0 = k' => h hh.symm)]
    · simp only [setEntry, if_neg h0, lookupEntry]
      by_cases h1 : k0 = k'
      · rw [if_pos h1, if_neg (fun hh : k' = k => h0 (h1.trans hh)), if_pos h1]
      · rw [if_neg h1, if_neg h1, ih]

/-- A left fold of `Map.set` calls realises last-write-wins: the final
binding of a key is its last staged value, and keys never staged read
from the seed map. -/
theorem lookupEntry_foldl_setEntry (cm : List (String × Item)) :
    ∀ (m0 : List (String × Item)) (sk : String),
      lookupEntry (cm.foldl (fun m p => setEntry m p.1 p.2) m0) sk =
        match lastVal cm sk with
        | some v => some v
        | none => lookupEntry m0 sk := by
  induction cm with
  | nil =>
    intro m0 sk
    simp [lastVal]
  | cons p rest ih =>
    intro m0 sk
    obtain ⟨k, v⟩ := p
    simp only [List.foldl_cons]
    rw [ih (setEntry m0 k v) sk]
    cases hl : lastVal rest sk with
    | some w => simp [lastVal, hl]
    | none =>
      simp only [lastVal, hl]
      rw [lookupEntry_setEntry]
      by_cases h : k = sk
      · simp [h]
      · have h' : ¬ sk = k := fun hh => h hh.symm
        simp [h, h']

/-- C9: a successful flush writes under the page key a record whose data
is the merge of the previously persisted fields with the staged
changes, where for each stable key the most recent staged value wins
and previously persisted fields not re-staged read through unchanged;
the staged map itself is last-write-wins per stable key (a repeated
`recordChange` for a key leaves only the latest item). -/
theorem saveCurrentPage_merge (quota : Option Nat) (bytes : Pages → Nat)
    (now : Nat) (url key : String) (store : Pages) (changed : ChangedMap)
    (h : changed.isEmpty = false) :
    ∃ written : Pages,
      saveCurrentPage false false quota bytes now url key store changed =
        (cleanupIfNeeded quota bytes written, ([] : ChangedMap)) ∧
      lookupEntry written key =
        some ⟨now, url,
          (mergeData ((lookupEntry store key).map (·.data)) changed).map (·.2)⟩ ∧
      (∀ sk : String,
        lookupEntry (mergeData ((lookupEntry store key).map (·.data)) changed) sk =
          match lastVal changed sk with
          | some it => some it
          | none =>
            match (lookupEntry store key).map (·.data) with
            | some items => lastVal (items.map (fun it => (stableKey it.id, it))) sk
            | none => none) ∧
      (∀ (m : ChangedMap) (el : Elem),
        lookupEntry (recordChange el m) (stableKey (some (getStableId el)))
          = some (mkItem el)) := by
  refine ⟨setEntry store key
      ⟨now, url, (mergeData ((lookupEntry store key).map (·.data)) changed).map (·.2)⟩,
    ?_, ?_, ?_, ?_⟩
  · simp [saveCurrentPage, h]
  · rw [lookupEntry_setEntry]
    simp
  · intro sk
    unfold mergeData
    rw [lookupEntry_foldl_setEntry]
    cases hl : lastVal changed sk with
    | some it => simp
    | none =>
      simp only
      cases hex : (lookupEntry store key).map (·.data) with
      | none => simp [lookupEntry, List.find?]
      | some items =>
        simp only
        rw [← List.foldl_map (fun it : Item => (stableKey it.id, it))
          (fun m p => setEntry m p.1 p.2)]
        rw [lookupEntry_foldl_setEntry]
        cases lastVal (items.map fun it => (stableKey it.id, it)) sk with
        | some w => simp
        | none => simp [lookupEntry, List.find?]
  · intro m el
    rw [recordChange, lookupEntry_setEntry]
    simp



/-- C9 witness: a staged edit for `id:em` overrides the persisted item
under the same key while the untouched `id:zz` item is preserved, and
the record written carries the flush timestamp and url. -/
theorem saveCurrentPage_merge_witness :
    ∃ written : Pages,
      saveCurrentPage false false none (fun _ => 0) 7 "https://a.test/p" "k"
          storeW changedW =
        (cleanupIfNeeded none (fun _ => 0) written, ([] : ChangedMap)) ∧
      lookupEntry written "k" =
        some ⟨7, "https://a.test/p",
          (mergeData ((lookupEntry storeW "k").map (·.data)) changedW).map (·.2)⟩ ∧
      (∀ sk : String,
        lookupEntry (mergeData ((lookupEntry storeW "k").map (·.data)) changedW) sk =
          match lastVal changedW sk with
          | some it => some it
          | none =>
            match (lookupEntry storeW "k").map (·.data) with
            | some items => lastVal (items.map (fun it => (stableKey it.id, it))) sk
            | none => none) ∧
      (∀ (m : ChangedMap) (el : Elem),
        lookupEntry (recordChange el m) (stableKey (some (getStableId el)))
          = some (mkItem el)) :=
  saveCurrentPage_merge none (fun _ => 0) 7 "https://a.test/p" "k"
    storeW changedW (by decide)

/-! ### C3 / C4: the value codec -/

/-- What `findIdx?` finds: an element satisfying the predicate at the
returned index, with every earlier element failing it. -/
theorem findIdx?_some_spec {α : Type} (p : α → Bool) :
    ∀ (l : List α) (i : Nat), l.findIdx? p = some i →
      ∃ a, l.get? i = some a ∧ p a = true ∧
        ∀ j b, j < i → l.get? j = some b → p b = false := by
  intro l
  induction l with
  | nil =>
    intro i h
    simp [List.findIdx?] at h
  | cons x xs ih =>
    intro i h
    rw [List.findIdx?_cons] at h
    by_cases hp : p x = true
    · simp [hp] at h
      subst h
      exact ⟨x, rfl, hp, fun j b hj _ => absurd hj (Nat.not_lt_zero j)⟩
    · simp [hp, List.findIdx?_succ] at h
      obtain ⟨i', hi', hsum⟩ := h
      obtain ⟨a, hget, hpa, hbef⟩ := ih i' hi'
      subst hsum
      refine ⟨a, hget, hpa, ?_⟩
      intro j b hj hg
      cases j with
      | zero =>
        simp at hg
        subst hg
        simpa using hp
      | succ j' => exact hbef j' b (by omega) hg

/-- Converse: a first hit at index `k` pins down `findIdx?`. -/
theorem findIdx?_eq_some_of {α : Type} (p : α → Bool) :
    ∀ (l : List α) (k : Nat) (a : α), l.get? k = some a → p a = true →
      (∀ j b, j < k → l.get? j = some b → p b = false) →
      l.findIdx? p = some k := by
  intro l
  induction l with
  | nil =>
    intro k a hget
    simp at hget
  | cons x xs ih =>
    intro k a hget hpa hbef
    rw [List.findIdx?_cons]
    cases k with
    | zero =>
      simp at hget
      subst hget
      simp [hpa]
    | succ k' =>
      have hx : p x = false := hbef 0 x (by omega) rfl
      have htl := ih k' a hget hpa (fun j b hj hg => hbef (j + 1) b (by omega) hg)
      simp [hx, List.findIdx?_succ, htl]

/-- Deselecting everything (`selMark none`) leaves no selected option. -/
theorem find?_selMark_none :
    ∀ (opts : List Opt) (i : Nat), (selMark none i opts).find? (·.selected) = none := by
  intro opts
  induction opts with
  | nil => intro i; rfl
  | cons o os ih =>
    intro i
    rw [selMark, List.find?_cons_of_neg _ (by simp)]
    exact ih (i + 1)

/-- Marking with `some (i+j)` makes the option at offset `j` the first (and
only) selected one, with its value intact. -/
theorem find?_selMark_some :
    ∀ (opts : List Opt) (i j : Nat) (a : Opt), opts.get? j = some a →
      (selMark (some (i + j)) i opts).find? (·.selected) =
        some ⟨a.value, true⟩ := by
  intro opts
  induction opts with
  | nil =>
    intro i j a hget
    simp at hget
  | cons o os ih =>
    intro i j a hget
    cases j with
    | zero =>
      simp at hget
      subst hget
      rw [selMark, List.find?_cons_of_pos _ (by simp)]
      simp
    | succ j' =>
      have hne : (some (i + (j' + 1)) == some i) = false := by
        rw [beq_eq_false_iff_ne]
        intro hh
        exact absurd (Option.some.inj hh) (by omega)
      rw [selMark, List.find?_cons_of_neg _ (by simp [hne])]
      have harith : i + (j' + 1) = (i + 1) + j' := by omega
      rw [harith]
      exact ih (i + 1) j' a hget

/-- Marking (`selMark`) is the identity when each option's flag already equals the
membership test the marker writes. -/
theorem selMark_eq_self :
    ∀ (opts : List Opt) (i : Nat) (hit : Option Nat),
      (∀ k o, opts.get? k = some o → o.selected = (hit == some (i + k))) →
      selMark hit i opts = opts := by
  intro opts
  induction opts with
  | nil => intro i hit _; rfl
  | cons o os ih =>
    intro i hit h
    have h0 : o.selected = (hit == some i) := by
      have := h 0 o rfl
      simpa using this
    have htail : ∀ k o', os.get? k = some o' → o'.selected = (hit == some ((i + 1) + k)) := by
      intro k o' hg
      have hh := h (k + 1) o' hg
      have harith : i + (k + 1) = (i + 1) + k := by omega
      rw [harith] at hh
      exact hh
    rw [selMark, ← h0, ih (i + 1) hit htail]

/-- Every index recorded by `selectedIdxsFrom s` is at least `s`. -/
theorem selectedIdxsFrom_ge :
    ∀ (opts : List Opt) (s j : Nat), j ∈ selectedIdxsFrom s opts → s ≤ j := by
  intro opts
  induction opts with
  | nil =>
    intro s j hj
    simp [selectedIdxsFrom] at hj
  | cons p ps ih =>
    intro s j hj
    simp only [selectedIdxsFrom] at hj
    by_cases hp : p.selected
    · simp [hp] at hj
      rcases hj with hj | hj
      · omega
      · have := ih (s + 1) j hj
        omega
    · simp [hp] at hj
      have := ih (s + 1) j hj
      omega

/-- Rewriting flags by membership (`markSelectedFrom`) writes back exactly the recorded member flags. -/
theorem markSelectedFrom_eq_self :
    ∀ (opts : List Opt) (i : Nat) (idxs : List Nat),
      (∀ j, i ≤ j → (idxs.contains j = (selectedIdxsFrom i opts).contains j)) →
      markSelectedFrom idxs i opts = opts := by
  intro opts
  induction opts with
  | nil => intro i idxs _; rfl
  | cons o os ih =>
    intro i idxs h
    have hhead : idxs.contains i = o.selected := by
      rw [h i (le_refl i)]
      simp only [selectedIdxsFrom]
      by_cases hs : o.selected
      · simp [hs, List.contains_cons]
      · simp only [hs, if_neg (by simp [hs] : ¬ o.selected = true)]
        rw [List.contains_eq_any_beq]
        rw [Bool.eq_false_iff]
        intro hany
        rw [List.any_eq_true] at hany
        obtain ⟨x, hx, hbeq⟩ := hany
        rw [beq_iff_eq] at hbeq
        subst hbeq
        have := selectedIdxsFrom_ge os (i + 1) i hx
        omega
    have htail : ∀ j, i + 1 ≤ j →
        (idxs.contains j = (selectedIdxsFrom (i + 1) os).contains j) := by
      intro j hj
      rw [h j (by omega)]
      simp only [selectedIdxsFrom]
      by_cases hs : o.selected
      · have hne : (j == i) = false := by
          rw [beq_eq_false_iff_ne]
          omega
        simp [hs, List.contains_cons, hne]
        intro hji
        exact absurd hji (by omega)
      · simp [hs]
    rw [markSelectedFrom, hhead, ih (i + 1) idxs htail]

/-- Converse of `find?`: a first hit pins the result. -/
theorem find?_eq_some_of {α : Type} (p : α → Bool) :
    ∀ (l : List α) (k : Nat) (a : α), l.get? k = some a → p a = true →
      (∀ j b, j < k → l.get? j = some b → p b = false) →
      l.find? p = some a := by
  intro l
  induction l with
  | nil =>
    intro k a hget
    simp at hget
  | cons x xs ih =>
    intro k a hget hpa hbef
    cases k with
    | zero =>
      simp at hget
      subst hget
      exact List.find?_cons_of_pos _ hpa
    | succ k' =>
      have hx : p x = false := hbef 0 x (by omega) rfl
      rw [List.find?_cons_of_neg _ (by simp [hx])]
      exact ih k' a hget hpa (fun j b hj hg => hbef (j + 1) b (by omega) hg)



/-- Writing back a single select's own value always preserves the
observable value. -/
theorem selMark_value_preserved (opts : List Opt) :
    selectValueOf
      (selMark (opts.findIdx? (fun o => o.value = selectValueOf opts)) 0 opts) =
      selectValueOf opts := by
  cases hfind : opts.findIdx? (fun o => o.value = selectValueOf opts) with
  | none =>
    rw [List.findIdx?_eq_none_iff] at hfind
    have hsv : opts.find? (·.selected) = none := by
      cases hsel : opts.find? (·.selected) with
      | none => rfl
      | some o =>
        exfalso
        have hmem := List.mem_of_find?_eq_some hsel
        have hval : selectValueOf opts = o.value := by
          unfold selectValueOf
          rw [hsel]
        have := hfind o hmem
        simp [hval] at this
    unfold selectValueOf
    rw [find?_selMark_none, hsv]
  | some m =>
    obtain ⟨a, hget, hpa, _⟩ := findIdx?_some_spec _ opts m hfind
    have hsm := find?_selMark_some opts 0 m a hget
    have h0m : (0 : Nat) + m = m := by omega
    rw [h0m] at hsm
    unfold selectValueOf
    rw [hsm]
    simp at hpa
    rw [hpa]
    rfl

/-- With at most one selected option, re-selecting the first selected
index is the identity on the option list. -/
theorem selMark_firstSelected (opts : List Opt) (hone : atMostOneSelected opts) :
    selMark (opts.findIdx? (·.selected)) 0 opts = opts := by
  apply selMark_eq_self
  intro k o hk
  cases hfind : opts.findIdx? (·.selected) with
  | none =>
    rw [List.findIdx?_eq_none_iff] at hfind
    have := hfind o (List.get?_mem hk)
    simp at this
    simp [this]
  | some m =>
    obtain ⟨b, hbg, hbp, hbef⟩ := findIdx?_some_spec _ opts m hfind
    rcases Nat.lt_trichotomy k m with hkm | hkm | hkm
    · rw [hbef k o hkm hk]
      symm
      rw [beq_eq_false_iff_ne]
      intro hh
      exact absurd (Option.some.inj hh) (by omega)
    · subst hkm
      rw [hk] at hbg
      cases hbg
      rw [hbp]
      symm
      simp
    · cases hos : o.selected with
      | false =>
        symm
        rw [beq_eq_false_iff_ne]
        intro hh
        exact absurd (Option.some.inj hh) (by omega)
      | true =>
        have := hone k m o b hk hbg hos hbp
        omega

/-- C3 amended: writing back the value just read is a no-op for every
input, textarea, multi-select and unsupported element; for a single
select it always preserves the select's observable value, and is a
no-op whenever at most one option is selected and the selected state is
value-stable (first option carrying the current value is the selected
one).  The counterexample shows the unconditional claim fails when a
selected option is preceded by another option with an equal value. -/
theorem readWrite_roundTrip (el : Elem) :
    (el.tagName = "INPUT" → writeControlValue el (readControlValue el) = el) ∧
    (el.tagName = "TEXTAREA" → writeControlValue el (readControlValue el) = el) ∧
    (el.tagName ≠ "INPUT" → el.tagName ≠ "TEXTAREA" → el.tagName ≠ "SELECT" →
      writeControlValue el (readControlValue el) = el) ∧
    (el.tagName = "SELECT" → el.multiple = true →
      writeControlValue el (readControlValue el) = el) ∧
    (el.tagName = "SELECT" → el.multiple = false →
      selectValueOf (writeControlValue el (readControlValue el)).options =
        selectValueOf el.options ∧
      (atMostOneSelected el.options → selectValueStable el.options →
        writeControlValue el (readControlValue el) = el)) := by
  obtain ⟨tg, ty, nm, ida, ph, ac, al, alb, ti, fa, lb, ps, di, va, ch, mu, op⟩ := el
  refine ⟨?_, ?_, ?_, ?_, ?_⟩
  · intro htag
    subst htag
    by_cases hcb : typeResolved ⟨"INPUT", ty, nm, ida, ph, ac, al, alb, ti, fa, lb, ps, di, va, ch, mu, op⟩ = "checkbox"
    · simp [readControlValue, writeControlValue, hcb]
    · by_cases hrd : typeResolved ⟨"INPUT", ty, nm, ida, ph, ac, al, alb, ti, fa, lb, ps, di, va, ch, mu, op⟩ = "radio"
      · simp [readControlValue, writeControlValue, hcb, hrd]
      · simp [readControlValue, writeControlValue, hcb, hrd]
  · intro htag
    subst htag
    simp [readControlValue, writeControlValue]
  · intro h1 h2 h3
    simp only [] at h1 h2 h3
    simp [readControlValue, writeControlValue, h1, h2, h3]
  · intro htag hm
    subst htag
    simp only [] at hm
    subst hm
    have hmark : markSelectedFrom (selectedIdxsFrom 0 op) 0 op = op :=
      markSelectedFrom_eq_self op 0 _ (fun j _ => rfl)
    simp [readControlValue, writeControlValue, hmark]
  · intro htag hm
    subst htag
    simp only [] at hm
    subst hm
    have hwrite : writeControlValue
        ⟨"SELECT", ty, nm, ida, ph, ac, al, alb, ti, fa, lb, ps, di, va, ch, false, op⟩
        (readControlValue
          ⟨"SELECT", ty, nm, ida, ph, ac, al, alb, ti, fa, lb, ps, di, va, ch, false, op⟩) =
        ⟨"SELECT", ty, nm, ida, ph, ac, al, alb, ti, fa, lb, ps, di, va, ch, false,
          selMark (op.findIdx? (fun o => o.value = selectValueOf op)) 0 op⟩ := by
      simp [readControlValue, writeControlValue, setSelectValue]
    constructor
    · rw [hwrite]
      exact selMark_value_preserved op
    · intro hone hstable
      rw [hwrite]
      unfold selectValueStable at hstable
      simp only [] at hstable
      rw [hstable, selMark_firstSelected op hone]


/-- C3 counterexample: on this trackable single select, writing back the
value just read moves the selection from the second `x` option to the
first — observably not a no-op. -/
theorem readWrite_roundTrip_counterexample :
    isUsableControl selDup = true ∧
    writeControlValue selDup (readControlValue selDup) ≠ selDup := by
  decide

/-- The witness select's options carry at most one selected flag. -/
theorem atMostOne_pairW : atMostOneSelected [⟨"a", true⟩, ⟨"b", false⟩] := by
  intro i j oi oj hi hj hoi hoj
  cases i with
  | zero =>
    cases j with
    | zero => rfl
    | succ j' =>
      cases j' with
      | zero =>
        simp at hj
        rw [← hj] at hoj
        simp at hoj
      | succ j2 => simp at hj
  | succ i' =>
    cases i' with
    | zero =>
      simp at hi
      rw [← hi] at hoi
      simp at hoi
    | succ i2 => simp at hi

/-- C3 witness: the round trip is a literal no-op on a concrete text
input and on a concrete value-stable single select. -/
theorem readWrite_roundTrip_witness :
    writeControlValue elText (readControlValue elText) = elText ∧
    writeControlValue { selDup with options := [⟨"a", true⟩, ⟨"b", false⟩] }
        (readControlValue { selDup with options := [⟨"a", true⟩, ⟨"b", false⟩] }) =
      { selDup with options := [⟨"a", true⟩, ⟨"b", false⟩] } :=
  ⟨(readWrite_roundTrip elText).1 (by decide),
   ((readWrite_roundTrip { selDup with options := [⟨"a", true⟩, ⟨"b", false⟩] }).2.2.2.2
      (by decide) (by decide)).2 atMostOne_pairW (by unfold selectValueStable; decide)⟩


/-- C4 amended: `writeControlValue` is total by construction, and on
every mismatched shape/element combination it is a no-op — except that
an `input`-shaped value written to an INPUT element of any subtype
(checkbox and radio included) sets the element's value string.  The
counterexample shows the unconditional no-op claim fails there. -/
theorem writeControlValue_mismatch (el : Elem) (d : ControlValue)
    (h : shapeMatches el d = false) :
    writeControlValue el (some d) = el ∨
    (el.tagName = "INPUT" ∧ ∃ v, d = .input v ∧
      writeControlValue el (some d) = { el with value := v }) := by
  by_cases hinp : el.tagName = "INPUT"
  · cases d with
    | checkbox c =>
      by_cases hcb : typeResolved el = "checkbox"
      · exfalso
        simp [shapeMatches, readControlValue, hinp, hcb] at h
      · left
        simp [writeControlValue, hinp, hcb]
    | radio c v =>
      by_cases hrd : typeResolved el = "radio"
      · exfalso
        by_cases hcb : typeResolved el = "checkbox"
        · rw [hcb] at hrd
          simp at hrd
        · simp [shapeMatches, readControlValue, hinp, hcb, hrd] at h
      · left
        simp [writeControlValue, hinp, hrd]
    | input v =>
      right
      exact ⟨hinp, v, rfl, by simp [writeControlValue, hinp]⟩
    | textarea v => left; simp [writeControlValue, hinp]
    | selectMultiple idxs vals => left; simp [writeControlValue, hinp]
    | select ix v => left; simp [writeControlValue, hinp]
  · by_cases hta : el.tagName = "TEXTAREA"
    · cases d with
      | textarea v =>
        exfalso
        simp [shapeMatches, readControlValue, hinp, hta] at h
      | checkbox c => left; simp [writeControlValue, hinp, hta]
      | radio c v => left; simp [writeControlValue, hinp, hta]
      | input v => left; simp [writeControlValue, hinp, hta]
      | selectMultiple idxs vals => left; simp [writeControlValue, hinp, hta]
      | select ix v => left; simp [writeControlValue, hinp, hta]
    · by_cases hse : el.tagName = "SELECT"
      · by_cases hmu : el.multiple = true
        · cases d with
          | selectMultiple idxs vals =>
            exfalso
            simp [shapeMatches, readControlValue, hinp, hta, hse, hmu] at h
          | checkbox c => left; simp [writeControlValue, hinp, hta, hse, hmu]
          | radio c v => left; simp [writeControlValue, hinp, hta, hse, hmu]
          | input v => left; simp [writeControlValue, hinp, hta, hse, hmu]
          | textarea v => left; simp [writeControlValue, hinp, hta, hse, hmu]
          | select ix v => left; simp [writeControlValue, hinp, hta, hse, hmu]
        · cases d with
          | select ix v =>
            exfalso
            simp [shapeMatches, readControlValue, hinp, hta, hse, hmu] at h
          | checkbox c => left; simp [writeControlValue, hinp, hta, hse, hmu]
          | radio c v => left; simp [writeControlValue, hinp, hta, hse, hmu]
          | input v => left; simp [writeControlValue, hinp, hta, hse, hmu]
          | textarea v => left; simp [writeControlValue, hinp, hta, hse, hmu]
          | selectMultiple idxs vals =>
            left
            simp [writeControlValue, hinp, hta, hse, hmu]
      · left
        simp [writeControlValue, hinp, hta, hse]


/-- C4 counterexample: an `input`-shaped value is shape-mismatched for a
checkbox element, yet writing it modifies the element (its value string
changes), so mismatched writes are not universally no-ops. -/
theorem writeControlValue_mismatch_counterexample :
    shapeMatches elCheckbox (.input "x") = false ∧
    writeControlValue elCheckbox (some (.input "x")) ≠ elCheckbox ∧
    writeControlValue elCheckbox (some (.input "x")) = { elCheckbox with value := "x" } := by
  decide

/-- C4 witness: a checkbox-shaped value written to a text input is a
no-op. -/
theorem writeControlValue_mismatch_witness :
    writeControlValue elText (some (.checkbox true)) = elText ∨
    (elText.tagName = "INPUT" ∧ ∃ v, ControlValue.checkbox true = .input v ∧
      writeControlValue elText (some (.checkbox true)) = { elText with value := v }) :=
  writeControlValue_mismatch elText (.checkbox true) (by decide)

end FormSaver
